import Mathlib

/-!
Verification of the image-branding pipeline of MoonrakerAI/unique-photos.

The repository holds two Flask variants of the same pipeline:
* `src/app.py` (`process_photos`): the blob-storage pipeline;
* `src/CascadeProjects/windsurf-project/app.py` (`upload`): the legacy
  direct-upload pipeline.

This file gives a shallow embedding of the compositing core of both
variants (raster images as pixel functions, the footer-canvas
construction, overlay scaling and opacity, output naming, batch error
policy) and proves or refutes the frozen claims about them.

Conventions of the embedding:
* machine pixel values are `Nat` (8-bit values stay below 256 in the
  source; arithmetic on them is exact here);
* Python `int(x * 0.15)`, `int(x * 0.3)`, `int(x * 0.5)`, `int(x * 0.02)`
  are modelled as exact truncated rationals, i.e. `3*x/20`, `3*x/10`,
  `x/2`, `x/50` in `Nat` division (for these constant multipliers the
  double-precision product never crosses an integer boundary away from
  the exact value at the magnitudes an image can have, so truncation of
  the float equals truncation of the exact product);
* the Pillow collaborators that the source calls are modelled by their
  documented behaviour: `Image.paste(src, box, mask)` as per-channel
  linear interpolation by the mask value (exact at mask 0 and 255, the
  only values the claims rely on), `Image.thumbnail` by its
  target-size computation (Pillow >= 7), and the resampling filter and
  text rasterizer as explicit collaborator parameters carrying only
  their size contracts.
-/

namespace UniquePhotos

/-- An 8-bit-per-channel RGBA pixel (`mode='RGBA'` in the source). -/
structure RGBA where
  r : Nat
  g : Nat
  b : Nat
  a : Nat
deriving DecidableEq

/-- The fully opaque white pixel `(255, 255, 255, 255)` used for every
fresh canvas in the source. -/
def white : RGBA := ⟨255, 255, 255, 255⟩

/-- A raster image: a size and a pixel buffer, modelled as a total
function (only coordinates below the size are meaningful). -/
structure Img where
  width : Nat
  height : Nat
  px : Nat → Nat → RGBA

/-- One channel of Pillow's masked paste: destination and source values
blended by the 8-bit mask value `m` (`dst*(255-m)/255 + src*m/255`).
Exact at `m = 0` (keeps the destination) and `m = 255` (takes the
source). -/
def blendCh (d s m : Nat) : Nat := (d * (255 - m) + s * m) / 255

/-- Per-pixel masked blend of all four channels. -/
def blendPx (d s : RGBA) (m : Nat) : RGBA :=
  ⟨blendCh d.r s.r m, blendCh d.g s.g m, blendCh d.b s.b m, blendCh d.a s.a m⟩

/-- `dest.paste(src, (ox, oy), src)` of the source: the RGBA overlay is
pasted with its own alpha channel as the mask.  Offsets are integers
because the QR x-offset `W - qr_width - side_padding` can be negative
for very narrow photos. -/
def pasteMask (dest src : Img) (ox oy : Int) : Img :=
  { dest with
    px := fun x y =>
      if ox ≤ (x : Int) ∧ (x : Int) < ox + src.width ∧
          oy ≤ (y : Int) ∧ (y : Int) < oy + src.height then
        let s := src.px ((x : Int) - ox).toNat ((y : Int) - oy).toNat
        blendPx (dest.px x y) s s.a
      else dest.px x y }

/-- `footer_height = max(int(img.height * 0.15), 120)` from both
variants (`int` truncates, so `int(H*0.15) = 3*H/20` in `Nat`
division). -/
def footerHeight (H : Nat) : Nat := max (3 * H / 20) 120

/-- `side_padding = int(img.width * 0.02)`. -/
def sidePad (W : Nat) : Nat := W / 50

/-- `target_element_height = 360`, the fixed cap for overlay sizes. -/
def targetElementHeight : Nat := 360

/-- An all-white, fully opaque canvas
(`Image.new('RGBA', size, (255, 255, 255, 255))`). -/
def blank (w h : Nat) : Img := ⟨w, h, fun _ _ => white⟩

/-- The footer canvas of the source: a white canvas of size
`(W, H + footer_height)` with the photo pasted at `(0, 0)` using its
own alpha as the mask (`clean_img.paste(img, (0, 0), img)`). -/
def makeCanvas (img : Img) : Img :=
  pasteMask (blank img.width (img.height + footerHeight img.height)) img 0 0

/-- Pillow's `round_aspect` helper inside `Image.thumbnail`: picks the
floor or the ceiling of the exact value, whichever the error functional
prefers (ties to the floor, as Python's two-argument `min`), then clamps
to at least 1. -/
def roundAspect (x : ℚ) (err : Int → ℚ) : Int :=
  max (if err ⌊x⌋ ≤ err ⌈x⌉ then ⌊x⌋ else ⌈x⌉) 1

/-- The target-size computation of Pillow's `Image.thumbnail(size)`
(Pillow >= 7): an early return when the box already contains the image,
otherwise the bounding dimension is fixed and the other is the
aspect-preserving value rounded by `round_aspect`.  Float divisions of
the original are modelled exactly in `ℚ`. -/
def thumbnailSize (w h bw bh : Nat) : Nat × Nat :=
  if w ≤ bw ∧ h ≤ bh then (w, h)
  else if (w : ℚ) / h ≤ (bw : ℚ) / bh then
    ((roundAspect ((bh : ℚ) * ((w : ℚ) / h))
        (fun n => |(w : ℚ) / h - (n : ℚ) / bh|)).toNat, bh)
  else
    (bw, (roundAspect ((bw : ℚ) / ((w : ℚ) / h))
        (fun n => if n = 0 then 0 else |(w : ℚ) / h - (bw : ℚ) / (n : ℚ)|)).toNat)

/-- The resampling collaborator (`Image.resize` with `Image.LANCZOS`):
an arbitrary filter carrying Pillow's size contract. -/
structure Resampler where
  resize : Img → Nat → Nat → Img
  width_resize : ∀ i w h, (resize i w h).width = w
  height_resize : ∀ i w h, (resize i w h).height = h

/-- `overlay.thumbnail((bw, bh), Image.LANCZOS)`: no-op when the box
already contains the overlay, otherwise resample to the computed
thumbnail size. -/
def thumbnailImg (rs : Resampler) (o : Img) (bw bh : Nat) : Img :=
  if o.width ≤ bw ∧ o.height ≤ bh then o
  else rs.resize o (thumbnailSize o.width o.height bw bh).1
    (thumbnailSize o.width o.height bw bh).2

/-- The 50% opacity adjustment of the source:
`alpha = overlay.split()[3]; alpha = alpha.point(lambda p: int(p * 0.5));
overlay.putalpha(alpha)` — every alpha value is halved (truncating),
colour channels untouched. -/
def putHalfAlpha (o : Img) : Img :=
  { o with px := fun x y =>
      let c := o.px x y
      ⟨c.r, c.g, c.b, c.a / 2⟩ }

/-- Per-photo overlay preparation: scale into the bounding box, then
halve the alpha channel (applied to a per-photo copy in the source). -/
def prepOverlay (rs : Resampler) (o : Img) (bw bh : Nat) : Img :=
  putHalfAlpha (thumbnailImg rs o bw bh)

/-- The prepared logo for a photo of width `W`:
`logo_copy.thumbnail((int(img.width * 0.3), target_element_height))`
followed by the 50% opacity adjustment. -/
def preparedLogo (rs : Resampler) (lg : Img) (W : Nat) : Img :=
  prepOverlay rs lg (3 * W / 10) targetElementHeight

/-- The prepared QR overlay:
`qr_copy.thumbnail((target_element_height, target_element_height))`
followed by the 50% opacity adjustment. -/
def preparedQr (rs : Resampler) (q : Img) : Img :=
  prepOverlay rs q targetElementHeight targetElementHeight

/-- Python strings (filenames, URLs, caption lines) as character
lists. -/
abbrev Name := List Char

/-- The text rasterization collaborator (`ImageDraw.text` plus the font
machinery of `load_font`): an arbitrary renderer that draws the caption
lines into the canvas, carrying the contract that drawing never changes
the canvas size. -/
structure TextRenderer where
  render : Img → List Name → Nat × Nat × Nat × Nat → Nat → Img
  width_render : ∀ c l rect f, (render c l rect f).width = c.width
  height_render : ∀ c l rect f, (render c l rect f).height = c.height

/-- `draw_footer_text(draw, lines, footer_rect, font_size_base)` of
`src/app.py` (lines 104-135): returns immediately when `lines` is
empty, otherwise renders the caption block. -/
def drawFooterText (rt : TextRenderer) (canvas : Img) (lines : List Name)
    (rect : Nat × Nat × Nat × Nat) (fsb : Nat) : Img :=
  if lines.isEmpty then canvas else rt.render canvas lines rect fsb

/-- `font_size_base = max(int(footer_height * 0.18), 24)` of the blob
pipeline. -/
def fontSizeBase (fh : Nat) : Nat := max (9 * fh / 50) 24

/-- The caption line list: the stripped practice name, then the
stripped location code, each only when non-empty. -/
def brandingLines (practiceName plusCode : Name) : List Name :=
  (if practiceName.isEmpty then [] else [practiceName]) ++
    (if plusCode.isEmpty then [] else [plusCode])

/-- The per-photo compositing core shared by both variants (the body of
the loop in `process_photos`, lines 299-367 of `src/app.py`): build the
footer canvas, paste the prepared logo at the top-left and the prepared
QR at the top-right (each prepared from a per-photo copy of the shared
overlay raster), then draw the caption block when at least one caption
line is present. -/
def composeImg (rs : Resampler) (rt : TextRenderer) (img : Img)
    (logo qr : Option Img) (practiceName plusCode : Name) : Img :=
  let W := img.width
  let H := img.height
  let canvas := makeCanvas img
  let pad := sidePad W
  let canvas1 :=
    match logo with
    | none => canvas
    | some lg => pasteMask canvas (preparedLogo rs lg W) pad pad
  let canvas2 :=
    match qr with
    | none => canvas1
    | some q =>
        let c := preparedQr rs q
        pasteMask canvas1 c ((W : Int) - c.width - pad) pad
  let lines := brandingLines practiceName plusCode
  if lines.isEmpty then canvas2
  else drawFooterText rt canvas2 lines (0, H, W, H + footerHeight H)
    (fontSizeBase (footerHeight H))

/-! ### Output naming -/

/-- One decimal digit as a character. -/
def digitChar (d : Nat) : Char :=
  match d with
  | 0 => '0' | 1 => '1' | 2 => '2' | 3 => '3' | 4 => '4'
  | 5 => '5' | 6 => '6' | 7 => '7' | 8 => '8' | _ => '9'

/-- The numeric value of a decimal digit character. -/
def digitVal (c : Char) : Nat :=
  match c with
  | '0' => 0 | '1' => 1 | '2' => 2 | '3' => 3 | '4' => 4
  | '5' => 5 | '6' => 6 | '7' => 7 | '8' => 8 | _ => 9

/-- Fuelled decimal rendering (most significant digit first); the fuel
only bounds the recursion depth. -/
def natDigitsAux : Nat → Nat → List Char
  | 0, _ => []
  | fuel + 1, n =>
      if n < 10 then [digitChar n]
      else natDigitsAux fuel (n / 10) ++ [digitChar (n % 10)]

/-- Python's decimal rendering of a natural number (as in
`f"{base_name}_{counter}"`). -/
def natDigits (n : Nat) : List Char := natDigitsAux (n + 1) n

/-- Decimal parsing, used only to prove `natDigits` injective. -/
def natVal (l : List Char) : Nat :=
  l.foldl (fun acc c => 10 * acc + digitVal c) 0

/-- The `counter`-th candidate output name of the windsurf uniqueness
loop: `f"{base_name}{ext}"` for `counter = 0`, then
`f"{base_name}_{counter}{ext}"`. -/
def candName (base ext : Name) (k : Nat) : Name :=
  if k = 0 then base ++ ext else base ++ '_' :: (natDigits k ++ ext)

/-- The `while os.path.exists(output_path)` loop of the windsurf
variant (lines 313-318): try candidates `counter = 0, 1, 2, ...` until
one is not among the existing names.  The fuel only bounds the search;
`existing.length + 1` candidates always contain a free one. -/
def uniqueNameAux (existing : List Name) (base ext : Name) :
    Nat → Nat → Name
  | 0, k => candName base ext k
  | fuel + 1, k =>
      if candName base ext k ∈ existing then
        uniqueNameAux existing base ext fuel (k + 1)
      else candName base ext k

/-- The collision-free output name chosen against the set of names
already present in the destination folder. -/
def uniqueName (existing : List Name) (base ext : Name) : Name :=
  uniqueNameAux existing base ext (existing.length + 1) 0

/-- The index of the last `'.'` of a filename, if any. -/
def lastDotIdx (l : Name) : Option Nat :=
  (List.range l.length).reverse.find? (fun i => l.getD i ' ' == '.')

/-- `os.path.splitext(name)[0]` (no path separators in play): drop the
last extension unless every character before the last dot is itself a
dot (CPython's leading-dot rule, so `.bashrc` keeps its name). -/
def stripExt (l : Name) : Name :=
  match lastDotIdx l with
  | none => l
  | some d => if (l.take d).any (fun c => c != '.') then l.take d else l

/-- `os.path.splitext(name)[1]`: the last extension including its dot,
or empty under the leading-dot rule. -/
def extOf (l : Name) : Name :=
  match lastDotIdx l with
  | none => []
  | some d => if (l.take d).any (fun c => c != '.') then l.drop d else []

/-- ASCII lowercasing of a Python `str.lower()` on filenames. -/
def lowerName (l : Name) : Name := l.map Char.toLower

/-- Modelled from the spec: werkzeug's `secure_filename` collaborator
(outside `src/`), which the spec describes as normalizing a base name
to a filesystem/URL-safe token by stripping unsafe characters; modelled
as keeping ASCII alphanumerics, `'.'`, `'_'` and `'-'`. -/
def isSafeChar (c : Char) : Bool :=
  (c.isAlphanum && c.toNat < 128) || c == '.' || c == '_' || c == '-'

/-- Modelled from the spec: `secure_filename(name)`. -/
def secureFilename (l : Name) : Name := l.filter isSafeChar

/-- `ALLOWED_EXTENSIONS = {'png', 'jpg', 'jpeg', 'gif'}`. -/
def allowedExtensions : List Name :=
  ["png".toList, "jpg".toList, "jpeg".toList, "gif".toList]

/-- The characters after the last dot
(`filename.rsplit('.', 1)[1]`). -/
def afterLastDot (l : Name) : Name :=
  match lastDotIdx l with
  | none => []
  | some d => l.drop (d + 1)

/-- `allowed_file(filename)` of both variants: has a dot and a
recognised (lowercased) extension. -/
def allowedFile (l : Name) : Bool :=
  l.contains '.' && allowedExtensions.contains (lowerName (afterLastDot l))

/-- The list of extensions (with dot) accepted for output naming in the
windsurf variant. -/
def extAllowList : List Name :=
  [".png".toList, ".jpg".toList, ".jpeg".toList, ".gif".toList]

/-- The windsurf output extension (lines 300-302):
`original_ext = os.path.splitext(photo.filename)[1].lower()`, replaced
by `'.png'` when missing or unrecognised. -/
def normExt (filename : Name) : Name :=
  let e := lowerName (extOf filename)
  if e.isEmpty || !(extAllowList.contains e) then ".png".toList else e

/-- The blob pipeline's output name (lines 369-377 of `src/app.py`):
the sanitised user-supplied base when present, else `photo_{i+1}`, and
always the extension `.jpg` — with no uniqueness check against the
destination. -/
def outputNameBlob (fileNames : List Name) (i : Nat) : Name :=
  let base :=
    match fileNames.get? i with
    | some nm =>
        if nm.isEmpty then "photo_".toList ++ natDigits (i + 1)
        else secureFilename (stripExt nm)
    | none => "photo_".toList ++ natDigits (i + 1)
  base ++ ".jpg".toList

/-! ### Output encoding -/

/-- An encoded output: lossless PNG (the raster verbatim, alpha kept)
or lossy JPEG at a quality setting. -/
inductive Encoded where
  | png (img : Img)
  | jpeg (quality : Nat) (img : Img)

/-- `clean_img.convert('RGB')`: the alpha channel is dropped; the
remaining three channels (already blended over the opaque white canvas
by the masked pastes) are kept and the result is fully opaque. -/
def toRGB (img : Img) : Img :=
  { img with px := fun x y =>
      let c := img.px x y
      ⟨c.r, c.g, c.b, 255⟩ }

/-- `output_name.lower().endswith('.png')`: the last four characters of
the lowercased name are `.png`. -/
def endsWithPng (nm : Name) : Bool :=
  (lowerName nm).drop ((lowerName nm).length - 4) == ".png".toList

/-- The windsurf save step (lines 323-328): PNG kept losslessly when
the chosen name ends in `.png`, otherwise flattened to RGB and saved
as JPEG at fixed quality 95. -/
def saveProcessed (outputName : Name) (img : Img) : Encoded :=
  if endsWithPng outputName then .png img else .jpeg 95 (toRGB img)

/-- The blob pipeline's save step (lines 380-382 of `src/app.py`):
always RGB-flattened JPEG at quality 95. -/
def blobEncode (img : Img) : Encoded := .jpeg 95 (toRGB img)

/-! ### The blob batch (`process_photos` of `src/app.py`) -/

/-- The state carried across the per-photo loop of `process_photos`:
the shared logo and QR rasters downloaded/generated once per request,
and the accumulated results.  Each iteration reads the shared overlays
(taking a `.copy()` before scaling and opacity) and appends one result;
nothing reassigns the overlays. -/
structure BlobState where
  logoSt : Option Img
  qrSt : Option Img
  results : List (Img × Name)

/-- One iteration of the `for i, photo_url in enumerate(photo_urls)`
loop: a photo whose download/decode failed (`none`) is skipped by the
per-photo `except: continue`; a decoded photo is composed against the
shared overlays and its result appended. -/
def blobStep (rs : Resampler) (rt : TextRenderer)
    (practiceName plusCode : Name) (fileNames : List Name)
    (st : BlobState) (ip : Nat × Option Img) : BlobState :=
  match ip.2 with
  | none => st
  | some img =>
      { st with results := st.results ++
          [(composeImg rs rt img st.logoSt st.qrSt practiceName plusCode,
            outputNameBlob fileNames ip.1)] }

/-- `process_photos` (lines 243-406 of `src/app.py`), with the photo
inputs already resolved through `download_from_url`/`Image.open`
(`none` marks a photo whose bytes could not be fetched or decoded):
`400` for an empty photo list, then the per-photo loop, then `500`
exactly when every photo failed. -/
def processPhotosBlob (rs : Resampler) (rt : TextRenderer)
    (photoUrls : List (Option Img)) (logo qr : Option Img)
    (practiceName plusCode : Name) (fileNames : List Name) :
    Except Nat (List (Img × Name)) :=
  if photoUrls.isEmpty then .error 400
  else
    let final := photoUrls.enum.foldl
      (blobStep rs rt practiceName plusCode fileNames) ⟨logo, qr, []⟩
    if final.results.isEmpty then .error 500 else .ok final.results

/-- Externally visible side effects of the blob pipeline. -/
inductive BlobEv where
  | fetchLogo
  | fetchPhoto (i : Nat)
  | storeOut (nm : Name)
deriving DecidableEq

/-- `process_photos` with its event trace: the empty-list validation
happens before the logo download and before the loop, so the `400`
path performs no fetch and no store. -/
def processPhotosBlobTr (rs : Resampler) (rt : TextRenderer)
    (photoUrls : List (Option Img)) (logo qr : Option Img)
    (practiceName plusCode : Name) (fileNames : List Name) :
    Except Nat (List (Img × Name)) × List BlobEv :=
  if photoUrls.isEmpty then (.error 400, [])
  else
    let evs := (if logo.isSome then [BlobEv.fetchLogo] else []) ++
      photoUrls.enum.flatMap (fun ip =>
        BlobEv.fetchPhoto ip.1 ::
          match ip.2 with
          | none => []
          | some _ => [BlobEv.storeOut (outputNameBlob fileNames ip.1)])
    (processPhotosBlob rs rt photoUrls logo qr practiceName plusCode
      fileNames, evs)

/-! ### The windsurf batch (`upload` of
`src/CascadeProjects/windsurf-project/app.py`) -/

/-- An `upload` request: the logo filename when a logo part with a
non-empty filename was sent, the QR URL (`[]` when absent), the photo
parts as (filename, decodes-and-processes-ok) pairs, the user-supplied
output base names, and the caption fields. -/
structure WReq where
  logoName : Option Name
  qrUrl : Name
  photos : List (Name × Bool)
  fileNames : List Name
  practiceName : Name
  plusCode : Name

/-- File-system side effects of the `upload` variant. -/
inductive WEv where
  | tmpLogoWrite
  | tmpLogoRemove
  | tmpQrWrite
  | tmpQrRemove
  | photoTmpWrite (nm : Name)
  | photoTmpRemove (nm : Name)
  | outWrite (nm : Name)
deriving DecidableEq

/-- The photos that survive the windsurf validation filter
(`photo and photo.filename and allowed_file(photo.filename)`). -/
def windsurfValid (req : WReq) : List (Name × Bool) :=
  req.photos.filter (fun p => !p.1.isEmpty && allowedFile p.1)

/-- The base name for the `i`-th valid photo (lines 306-308):
`file_names[i]` when present else `photo_{i+1}`, stripped of any
extension and sanitised. -/
def wBaseName (names : List Name) (i : Nat) : Name :=
  secureFilename (stripExt
    (match names.get? i with
     | some nm => nm
     | none => "photo_".toList ++ natDigits (i + 1)))

/-- The loop state of the windsurf per-photo loop: the names present in
the destination folder, the output names produced so far, and the
event trace. -/
structure WState where
  existing : List Name
  outputs : List Name
  events : List WEv

/-- One iteration of the windsurf loop (lines 215-338): the upload is
saved to a temp file, then on success the photo is processed, a unique
output name is chosen against the destination folder, the output is
written (so later existence checks see it) and the temp file removed;
on a per-photo exception the loop continues with nothing recorded. -/
def windsurfStep (names : List Name) (st : WState)
    (ip : Nat × Name × Bool) : WState :=
  let tmp := secureFilename ip.2.1
  let st1 := { st with events := st.events ++ [WEv.photoTmpWrite tmp] }
  if ip.2.2 then
    let ext := normExt ip.2.1
    let base := wBaseName names ip.1
    let out := uniqueName st1.existing base ext
    { existing := out :: st1.existing
      outputs := st1.outputs ++ [out]
      events := st1.events ++ [WEv.outWrite out, WEv.photoTmpRemove tmp] }
  else st1

/-- The body of `upload` after the logo check: QR temp write, the two
photo validations (each cleaning up the temp overlay files), the
filename defaulting, the per-photo loop, the final cleanup, and the
`500` exactly when no photo was processed. -/
def windsurfMain (existing0 : List Name) (req : WReq) (ev0 : List WEv)
    (hasLogo : Bool) : Except Nat (List Name) × List WEv :=
  let ev1 := ev0 ++ (if req.qrUrl.isEmpty then [] else [WEv.tmpQrWrite])
  let cleanup := (if hasLogo then [WEv.tmpLogoRemove] else []) ++
    (if req.qrUrl.isEmpty then [] else [WEv.tmpQrRemove])
  if req.photos.all (fun p => p.1.isEmpty) then
    (.error 400, ev1 ++ cleanup)
  else
    let valid := windsurfValid req
    if valid.isEmpty then (.error 400, ev1 ++ cleanup)
    else
      let names :=
        if req.fileNames.isEmpty || req.fileNames.length != valid.length
        then valid.map (fun p => stripExt p.1) else req.fileNames
      let final := valid.enum.foldl (windsurfStep names)
        ⟨existing0, [], ev1⟩
      if final.outputs.isEmpty then (.error 500, final.events ++ cleanup)
      else (.ok final.outputs, final.events ++ cleanup)

/-- `upload` of the windsurf variant, given the names already present
in the destination folder: the logo part is validated and saved to a
temp file first (lines 134-143), before the photo list is even
examined. -/
def windsurfUpload (existing0 : List Name) (req : WReq) :
    Except Nat (List Name) × List WEv :=
  match req.logoName with
  | some lf =>
      if allowedFile lf then
        windsurfMain existing0 req [WEv.tmpLogoWrite] true
      else (.error 400, [])
  | none => windsurfMain existing0 req [] false

/-! ### QR payload normalization -/

/-- `pat in s` for Python strings: `pat` occurs contiguously in `s`. -/
def hasSubstr (pat : Name) : Name → Bool
  | [] => pat.isEmpty
  | c :: rest => pat.isPrefixOf (c :: rest) || hasSubstr pat rest

/-- The maps-link patterns of both variants. -/
def mapsDomains : List Name :=
  ["google.com/maps".toList, "maps.google.com".toList,
    "maps.app.goo.gl".toList]

/-- `any(domain in qr_url for domain in [...])`. -/
def isGoogleMapsUrl (url : Name) : Bool :=
  mapsDomains.any (fun d => hasSubstr d url)

/-- The QR payload cleaning of both variants (lines 274-277 of
`src/app.py`): for a maps link containing `'?'`, keep
`qr_url.split('?')[0]`, i.e. everything before the first `'?'`. -/
def cleanQrUrl (url : Name) : Name :=
  if isGoogleMapsUrl url && url.contains '?' then
    url.takeWhile (fun c => c != '?')
  else url

/-! ### The claim's footer formula, and concrete collaborators -/

/-- Modelled from the spec: the claimed footer allocation
`footer_height = max(round(0.15 * H), 120)` with genuine rounding to
the nearest integer, to be compared with the source's truncating
`footerHeight`. -/
def footerHeightSpec (H : Nat) : Nat :=
  max (round ((3 * H : ℚ) / 20)).toNat 120

/-- A concrete resampler (nearest-pixel-like) satisfying the size
contract, used to instantiate witnesses. -/
def simpleResampler : Resampler :=
  ⟨fun i w h => ⟨w, h, fun x y => i.px x y⟩,
    fun _ _ _ => rfl, fun _ _ _ => rfl⟩

/-- A concrete do-nothing text renderer satisfying the size contract,
used to instantiate witnesses. -/
def simpleRenderer : TextRenderer :=
  ⟨fun c _ _ _ => c, fun _ _ _ _ => rfl, fun _ _ _ _ => rfl⟩

/-- A 1×1 fully opaque black test photo. -/
def solidTest : Img := ⟨1, 1, fun _ _ => ⟨0, 0, 0, 255⟩⟩

/-- A 1×1 fully transparent test photo with non-white colour
channels. -/
def transparentTest : Img := ⟨1, 1, fun _ _ => ⟨10, 20, 30, 0⟩⟩

/-- An 800×200 opaque test logo (the spec's concrete scenario). -/
def testLogo : Img := ⟨800, 200, fun _ _ => ⟨0, 0, 0, 255⟩⟩

/-- A windsurf request with two photos sharing the identical filename
`x.jpg` and no custom names. -/
def reqTwoSame : WReq :=
  ⟨none, [], [("x.jpg".toList, true), ("x.jpg".toList, true)], [], [], []⟩

/-- A windsurf request carrying a logo but an empty photo list. -/
def reqLogoOnly : WReq :=
  ⟨some "logo.png".toList, [], [], [], [], []⟩

/-- A windsurf request with nothing at all. -/
def reqNoPhotos : WReq := ⟨none, [], [], [], [], []⟩

/-! ## Basic raster lemmas -/

@[simp] lemma pasteMask_width (d s : Img) (ox oy : Int) :
    (pasteMask d s ox oy).width = d.width := rfl

@[simp] lemma pasteMask_height (d s : Img) (ox oy : Int) :
    (pasteMask d s ox oy).height = d.height := rfl

@[simp] lemma putHalfAlpha_width (o : Img) :
    (putHalfAlpha o).width = o.width := rfl

@[simp] lemma putHalfAlpha_height (o : Img) :
    (putHalfAlpha o).height = o.height := rfl

lemma pasteMask_px_of_notMem (d s : Img) (ox oy : Int) (x y : Nat)
    (h : ¬(ox ≤ (x : Int) ∧ (x : Int) < ox + s.width ∧
        oy ≤ (y : Int) ∧ (y : Int) < oy + s.height)) :
    (pasteMask d s ox oy).px x y = d.px x y := by
  simp only [pasteMask]
  rw [if_neg h]

lemma blendCh_zero (d s : Nat) : blendCh d s 0 = d := by
  simp [blendCh]

lemma blendPx_zero (d s : RGBA) : blendPx d s 0 = d := by
  simp [blendPx, blendCh_zero]

lemma makeCanvas_width (img : Img) : (makeCanvas img).width = img.width :=
  rfl

lemma makeCanvas_height (img : Img) :
    (makeCanvas img).height = img.height + footerHeight img.height := rfl

/-- Every pixel of the added footer band of the fresh canvas is the
fully opaque white background. -/
lemma makeCanvas_px_footer (img : Img) (x y : Nat)
    (hy : img.height ≤ y) : (makeCanvas img).px x y = white := by
  have h : ¬((0 : Int) ≤ (x : Int) ∧ (x : Int) < 0 + img.width ∧
      (0 : Int) ≤ (y : Int) ∧ (y : Int) < 0 + img.height) := by
    push_neg
    intro _ _ _
    omega
  rw [makeCanvas, pasteMask_px_of_notMem _ _ _ _ _ _ h]
  rfl

/-- A fully transparent source pixel leaves the white background intact
(the photo is pasted with its own alpha as the mask). -/
lemma makeCanvas_px_transparent (img : Img) (x y : Nat)
    (hx : x < img.width) (hy : y < img.height)
    (ha : (img.px x y).a = 0) : (makeCanvas img).px x y = white := by
  have h : (0 : Int) ≤ (x : Int) ∧ (x : Int) < 0 + img.width ∧
      (0 : Int) ≤ (y : Int) ∧ (y : Int) < 0 + img.height := by
    refine ⟨by positivity, ?_, by positivity, ?_⟩ <;> omega
  simp only [makeCanvas, pasteMask]
  rw [if_pos h]
  simp only [Int.sub_zero, Int.toNat_natCast]
  rw [ha, blendPx_zero]
  rfl

lemma drawFooterText_width (rt : TextRenderer) (c : Img) (l : List Name)
    (rect : Nat × Nat × Nat × Nat) (f : Nat) :
    (drawFooterText rt c l rect f).width = c.width := by
  unfold drawFooterText
  split
  · rfl
  · exact rt.width_render c l rect f

lemma drawFooterText_height (rt : TextRenderer) (c : Img) (l : List Name)
    (rect : Nat × Nat × Nat × Nat) (f : Nat) :
    (drawFooterText rt c l rect f).height = c.height := by
  unfold drawFooterText
  split
  · rfl
  · exact rt.height_render c l rect f

lemma composeImg_width (rs : Resampler) (rt : TextRenderer) (img : Img)
    (logo qr : Option Img) (pn pc : Name) :
    (composeImg rs rt img logo qr pn pc).width = img.width := by
  unfold composeImg
  cases logo <;> cases qr <;>
    simp [drawFooterText_width, makeCanvas, blank, apply_ite Img.width]

lemma composeImg_height (rs : Resampler) (rt : TextRenderer) (img : Img)
    (logo qr : Option Img) (pn pc : Name) :
    (composeImg rs rt img logo qr pn pc).height =
      img.height + footerHeight img.height := by
  unfold composeImg
  cases logo <;> cases qr <;>
    simp [drawFooterText_height, makeCanvas, blank, apply_ite Img.height]

/-! ## Thumbnail geometry lemmas -/

lemma one_le_roundAspect (x : ℚ) (err : Int → ℚ) : 1 ≤ roundAspect x err :=
  le_max_right _ _

lemma roundAspect_le (x : ℚ) (err : Int → ℚ) (z : Int)
    (hx : x ≤ (z : ℚ)) (hz : 1 ≤ z) : roundAspect x err ≤ z := by
  unfold roundAspect
  refine max_le ?_ hz
  split
  · exact le_trans (Int.floor_le_ceil x) (Int.ceil_le.mpr hx)
  · exact Int.ceil_le.mpr hx

/-- The dimension chosen by `round_aspect` is within one pixel of the
exact aspect-preserving value. -/
lemma abs_roundAspect_sub_le (x : ℚ) (err : Int → ℚ) (hx : 0 ≤ x) :
    |(roundAspect x err : ℚ) - x| ≤ 1 := by
  unfold roundAspect
  split
  case isTrue hc =>
    rcases le_or_lt 1 ⌊x⌋ with h1 | h1
    · rw [max_eq_left h1]
      rw [abs_sub_le_iff]
      constructor
      · linarith [Int.floor_le x]
      · linarith [Int.sub_one_lt_floor x]
    · rw [max_eq_right h1.le]
      have hxlt : x < 1 := by
        have h0 : ⌊x⌋ ≤ 0 := by omega
        have hfl : x < (⌊x⌋ : ℚ) + 1 := Int.lt_floor_add_one x
        have h0q : ((⌊x⌋ : ℤ) : ℚ) ≤ 0 := by exact_mod_cast h0
        linarith
      rw [abs_sub_le_iff]
      push_cast
      constructor <;> linarith
  case isFalse hc =>
    rcases le_or_lt 1 ⌈x⌉ with h1 | h1
    · rw [max_eq_left h1]
      rw [abs_sub_le_iff]
      constructor
      · linarith [Int.ceil_lt_add_one x]
      · linarith [Int.le_ceil x]
    · rw [max_eq_right h1.le]
      have h0 : ⌈x⌉ ≤ 0 := by omega
      have hx0 : x ≤ 0 := by
        have := Int.ceil_le.mp h0
        exact_mod_cast this
      have hxeq : x = 0 := le_antisymm hx0 hx
      rw [hxeq]
      norm_num

/-- The computed thumbnail size fits the bounding box and never exceeds
the original dimensions. -/
lemma thumbnailSize_le (w h bw bh : Nat) (hw : 0 < w) (hh : 0 < h)
    (hbh : 0 < bh) :
    (thumbnailSize w h bw bh).1 ≤ bw ∧ (thumbnailSize w h bw bh).1 ≤ w ∧
    (thumbnailSize w h bw bh).2 ≤ bh ∧ (thumbnailSize w h bw bh).2 ≤ h := by
  have hhq : (0 : ℚ) < (h : ℚ) := by exact_mod_cast hh
  have hwq : (0 : ℚ) < (w : ℚ) := by exact_mod_cast hw
  have hbhq : (0 : ℚ) < (bh : ℚ) := by exact_mod_cast hbh
  unfold thumbnailSize
  split
  case isTrue hin => exact ⟨hin.1, le_refl _, hin.2, le_refl _⟩
  case isFalse hout =>
  split
  case isTrue hbr =>
    have hcross : (w : ℚ) * bh ≤ (bw : ℚ) * h :=
      (div_le_div_iff₀ hhq hbhq).mp hbr
    have hcrossN : w * bh ≤ bw * h := by exact_mod_cast hcross
    have hbh_le_h : bh ≤ h := by
      by_contra hlt
      push_neg at hlt
      have h1 : w * h < w * bh := mul_lt_mul_of_pos_left hlt hw
      have h2 : w * h < bw * h := lt_of_lt_of_le h1 hcrossN
      have h3 : w < bw := lt_of_mul_lt_mul_right h2 (Nat.zero_le h)
      exact hout ⟨h3.le, hlt.le⟩
    have hv_le_bw : (bh : ℚ) * ((w : ℚ) / h) ≤ (bw : ℚ) := by
      rw [mul_div_assoc', div_le_iff₀ hhq]
      calc (bh : ℚ) * w = (w : ℚ) * bh := by ring
        _ ≤ (bw : ℚ) * h := hcross
    have hv_le_w : (bh : ℚ) * ((w : ℚ) / h) ≤ (w : ℚ) := by
      rw [mul_div_assoc', div_le_iff₀ hhq]
      have hble : (bh : ℚ) ≤ (h : ℚ) := by exact_mod_cast hbh_le_h
      calc (bh : ℚ) * w ≤ (h : ℚ) * w :=
            mul_le_mul_of_nonneg_right hble (le_of_lt hwq)
        _ = (w : ℚ) * h := by ring
    have hv_pos : (0 : ℚ) < (bh : ℚ) * ((w : ℚ) / h) := by positivity
    have hbw_pos : 0 < bw := by
      by_contra hb
      push_neg at hb
      interval_cases bw
      simp at hv_le_bw
      linarith
    have h1bw : (1 : Int) ≤ (bw : Int) := by exact_mod_cast hbw_pos
    have h1w : (1 : Int) ≤ (w : Int) := by exact_mod_cast hw
    constructor
    · have hle := roundAspect_le ((bh : ℚ) * ((w : ℚ) / h))
        (fun n => |(w : ℚ) / h - (n : ℚ) / bh|) (bw : Int)
        (by push_cast; exact hv_le_bw) h1bw
      exact Int.toNat_le.mpr hle
    refine ⟨?_, le_refl _, hbh_le_h⟩
    have hle := roundAspect_le ((bh : ℚ) * ((w : ℚ) / h))
      (fun n => |(w : ℚ) / h - (n : ℚ) / bh|) (w : Int)
      (by push_cast; exact hv_le_w) h1w
    exact Int.toNat_le.mpr hle
  case isFalse hbr =>
    push_neg at hbr
    have hcross : (bw : ℚ) * h < (w : ℚ) * bh :=
      (div_lt_div_iff₀ hbhq hhq).mp hbr
    have hcrossN : bw * h < w * bh := by exact_mod_cast hcross
    have hbw_le_w : bw ≤ w := by
      by_contra hlt
      push_neg at hlt
      have h1 : w * h < bw * h := mul_lt_mul_of_pos_right hlt hh
      have h2 : w * h < w * bh := lt_of_lt_of_le h1 hcrossN.le
      have h3 : h < bh := lt_of_mul_lt_mul_left h2 (Nat.zero_le w)
      exact hout ⟨hlt.le, h3.le⟩
    have hu_eq : (bw : ℚ) / ((w : ℚ) / h) = (bw : ℚ) * h / w := by
      rw [div_div_eq_mul_div]
    have hu_le_bh : (bw : ℚ) / ((w : ℚ) / h) ≤ (bh : ℚ) := by
      rw [hu_eq, div_le_iff₀ hwq]
      calc (bw : ℚ) * h ≤ (w : ℚ) * bh := hcross.le
        _ = (bh : ℚ) * w := by ring
    have hu_le_h : (bw : ℚ) / ((w : ℚ) / h) ≤ (h : ℚ) := by
      rw [hu_eq, div_le_iff₀ hwq]
      have hble : (bw : ℚ) ≤ (w : ℚ) := by exact_mod_cast hbw_le_w
      calc (bw : ℚ) * h ≤ (w : ℚ) * h :=
            mul_le_mul_of_nonneg_right hble (le_of_lt hhq)
        _ = (h : ℚ) * w := by ring
    have h1bh : (1 : Int) ≤ (bh : Int) := by exact_mod_cast hbh
    have h1h : (1 : Int) ≤ (h : Int) := by exact_mod_cast hh
    refine ⟨le_refl _, hbw_le_w, ?_, ?_⟩
    · have hle := roundAspect_le ((bw : ℚ) / ((w : ℚ) / h))
        (fun n => if n = 0 then 0 else |(w : ℚ) / h - (bw : ℚ) / (n : ℚ)|)
        (bh : Int) (by push_cast; exact hu_le_bh) h1bh
      exact Int.toNat_le.mpr hle
    · have hle := roundAspect_le ((bw : ℚ) / ((w : ℚ) / h))
        (fun n => if n = 0 then 0 else |(w : ℚ) / h - (bw : ℚ) / (n : ℚ)|)
        (h : Int) (by push_cast; exact hu_le_h) h1h
      exact Int.toNat_le.mpr hle

/-- The computed thumbnail size preserves the aspect ratio up to the
one-pixel rounding of the free dimension. -/
lemma thumbnailSize_aspect (w h bw bh : Nat) (hw : 0 < w) (hh : 0 < h)
    (hbh : 0 < bh) :
    |((thumbnailSize w h bw bh).1 : Int) * h -
      ((thumbnailSize w h bw bh).2 : Int) * w| ≤ (max w h : Nat) := by
  have hhq : (0 : ℚ) < (h : ℚ) := by exact_mod_cast hh
  have hwq : (0 : ℚ) < (w : ℚ) := by exact_mod_cast hw
  unfold thumbnailSize
  split
  case isTrue hin => simp [mul_comm]
  case isFalse hout =>
  split
  case isTrue hbr =>
    set v : ℚ := (bh : ℚ) * ((w : ℚ) / h) with hv
    set nx : Int := roundAspect v (fun n => |(w : ℚ) / h - (n : ℚ) / bh|)
      with hnx
    have hnx1 : 1 ≤ nx := one_le_roundAspect _ _
    have htn : ((nx.toNat : Nat) : Int) = nx := Int.toNat_of_nonneg (by omega)
    have hvh : v * h = (bh : ℚ) * w := by
      rw [hv, mul_assoc, div_mul_cancel₀]
      exact ne_of_gt hhq
    have habs : |(nx : ℚ) - v| ≤ 1 :=
      abs_roundAspect_sub_le v _ (by positivity)
    have hq : |(nx : ℚ) * h - (bh : ℚ) * w| ≤ (h : ℚ) := by
      rw [← hvh]
      have hfac : (nx : ℚ) * h - v * h = ((nx : ℚ) - v) * h := by ring
      rw [hfac, abs_mul, abs_of_pos hhq]
      calc |(nx : ℚ) - v| * h ≤ 1 * h :=
            mul_le_mul_of_nonneg_right habs (le_of_lt hhq)
        _ = (h : ℚ) := one_mul _
    have hz : |(nx * h - (bh : Int) * w : Int)| ≤ (h : Int) := by
      have hcast : ((|(nx * h - (bh : Int) * w : Int)| : Int) : ℚ) ≤
          (h : ℚ) := by
        push_cast
        exact hq
      exact_mod_cast hcast
    simp only [htn]
    calc |(nx * h - (bh : Int) * w : Int)| ≤ (h : Int) := hz
      _ ≤ ((max w h : Nat) : Int) := by
          have hle := le_max_right w h
          exact_mod_cast hle
  case isFalse hbr =>
    set u : ℚ := (bw : ℚ) / ((w : ℚ) / h) with hu
    set ny : Int := roundAspect u
      (fun n => if n = 0 then 0 else |(w : ℚ) / h - (bw : ℚ) / (n : ℚ)|)
      with hny
    have hny1 : 1 ≤ ny := one_le_roundAspect _ _
    have htn : ((ny.toNat : Nat) : Int) = ny := Int.toNat_of_nonneg (by omega)
    have huw : u * w = (bw : ℚ) * h := by
      rw [hu, div_div_eq_mul_div, div_mul_cancel₀]
      exact ne_of_gt hwq
    have habs : |(ny : ℚ) - u| ≤ 1 :=
      abs_roundAspect_sub_le u _ (by positivity)
    have hq : |(bw : ℚ) * h - (ny : ℚ) * w| ≤ (w : ℚ) := by
      rw [← huw]
      have hfac : u * w - (ny : ℚ) * w = (u - (ny : ℚ)) * w := by ring
      rw [hfac, abs_mul, abs_of_pos hwq]
      calc |u - (ny : ℚ)| * w ≤ 1 * w := by
            refine mul_le_mul_of_nonneg_right ?_ (le_of_lt hwq)
            rw [abs_sub_comm]
            exact habs
        _ = (w : ℚ) := one_mul _
    have hz : |((bw : Int) * h - ny * w : Int)| ≤ (w : Int) := by
      have hcast : ((|((bw : Int) * h - ny * w : Int)| : Int) : ℚ) ≤
          (w : ℚ) := by
        push_cast
        exact hq
      exact_mod_cast hcast
    simp only [htn]
    calc |((bw : Int) * h - ny * w : Int)| ≤ (w : Int) := hz
      _ ≤ ((max w h : Nat) : Int) := by
          have hle := le_max_left w h
          exact_mod_cast hle

/-- `thumbnail` leaves the image alone exactly when the box contains
it, so its result always has the computed thumbnail size. -/
lemma thumbnailImg_width (rs : Resampler) (o : Img) (bw bh : Nat) :
    (thumbnailImg rs o bw bh).width =
      (thumbnailSize o.width o.height bw bh).1 := by
  unfold thumbnailImg
  split
  case isTrue hin =>
    unfold thumbnailSize
    rw [if_pos hin]
  case isFalse hout => rw [rs.width_resize]

lemma thumbnailImg_height (rs : Resampler) (o : Img) (bw bh : Nat) :
    (thumbnailImg rs o bw bh).height =
      (thumbnailSize o.width o.height bw bh).2 := by
  unfold thumbnailImg
  split
  case isTrue hin =>
    unfold thumbnailSize
    rw [if_pos hin]
  case isFalse hout => rw [rs.height_resize]

lemma prepOverlay_width (rs : Resampler) (o : Img) (bw bh : Nat) :
    (prepOverlay rs o bw bh).width =
      (thumbnailSize o.width o.height bw bh).1 := by
  rw [prepOverlay, putHalfAlpha_width, thumbnailImg_width]

lemma prepOverlay_height (rs : Resampler) (o : Img) (bw bh : Nat) :
    (prepOverlay rs o bw bh).height =
      (thumbnailSize o.width o.height bw bh).2 := by
  rw [prepOverlay, putHalfAlpha_height, thumbnailImg_height]

/-! ## Output-naming lemmas -/

lemma digitVal_digitChar (d : Nat) (hd : d < 10) :
    digitVal (digitChar d) = d := by
  interval_cases d <;> rfl

lemma natVal_append_digit (l : List Char) (c : Char) :
    natVal (l ++ [c]) = 10 * natVal l + digitVal c := by
  unfold natVal
  rw [List.foldl_append]
  rfl

lemma natVal_natDigitsAux (fuel n : Nat) (h : n < fuel) :
    natVal (natDigitsAux fuel n) = n := by
  induction fuel generalizing n with
  | zero => omega
  | succ fuel ih =>
      unfold natDigitsAux
      split
      case isTrue h10 =>
        show natVal [digitChar n] = n
        unfold natVal
        simp [List.foldl]
        exact digitVal_digitChar n h10
      case isFalse h10 =>
        push_neg at h10
        rw [natVal_append_digit]
        have hdiv : n / 10 < fuel := by
          have := Nat.div_lt_self (by omega : 0 < n) (by omega : 1 < 10)
          omega
        rw [ih _ hdiv, digitVal_digitChar _ (Nat.mod_lt _ (by omega))]
        omega

lemma natVal_natDigits (n : Nat) : natVal (natDigits n) = n :=
  natVal_natDigitsAux (n + 1) n (Nat.lt_succ_self n)

lemma natDigits_injective : Function.Injective natDigits := by
  intro a b hab
  have := natVal_natDigits a
  rw [hab, natVal_natDigits] at this
  omega

lemma candName_injective (base ext : Name) :
    Function.Injective (candName base ext) := by
  intro k1 k2 h
  unfold candName at h
  by_cases h1 : k1 = 0 <;> by_cases h2 : k2 = 0
  · omega
  · rw [if_pos h1, if_neg h2] at h
    have hlen := congrArg List.length h
    simp [List.length_append] at hlen
    omega
  · rw [if_neg h1, if_pos h2] at h
    have hlen := congrArg List.length h
    simp [List.length_append] at hlen
    omega
  · rw [if_neg h1, if_neg h2] at h
    have h3 := List.append_cancel_left h
    have h4 : natDigits k1 ++ ext = natDigits k2 ++ ext := by
      injection h3
    have h5 := List.append_cancel_right h4
    exact natDigits_injective h5

lemma uniqueNameAux_all_mem (existing : List Name) (base ext : Name)
    (fuel k : Nat)
    (h : uniqueNameAux existing base ext fuel k ∈ existing) :
    ∀ i ≤ fuel, candName base ext (k + i) ∈ existing := by
  induction fuel generalizing k with
  | zero =>
      intro i hi
      have : i = 0 := by omega
      subst this
      exact h
  | succ fuel ih =>
      intro i hi
      unfold uniqueNameAux at h
      split at h
      case isTrue hmem =>
        match i with
        | 0 => exact hmem
        | j + 1 =>
            have := ih (k + 1) h j (by omega)
            have heq : k + 1 + j = k + (j + 1) := by omega
            rw [heq] at this
            exact this
      case isFalse hmem => exact absurd h hmem

lemma uniqueName_not_mem (existing : List Name) (base ext : Name) :
    uniqueName existing base ext ∉ existing := by
  intro hmem
  have hall := uniqueNameAux_all_mem existing base ext
    (existing.length + 1) 0 hmem
  set L : List Name :=
    (List.range (existing.length + 2)).map (candName base ext) with hL
  have hnodup : L.Nodup :=
    (List.nodup_range _).map (candName_injective base ext)
  have hsub : L ⊆ existing := by
    intro x hx
    rw [hL, List.mem_map] at hx
    obtain ⟨i, hi, rfl⟩ := hx
    rw [List.mem_range] at hi
    have := hall i (by omega)
    simpa using this
  have hlen := (hnodup.subperm hsub).length_le
  rw [hL, List.length_map, List.length_range] at hlen
  omega

lemma windsurfFold_inv (names : List Name) (E0 : List Name)
    (l : List (Nat × Name × Bool)) (st : WState)
    (h1 : st.outputs.Nodup) (h2 : ∀ o ∈ st.outputs, o ∈ st.existing)
    (h3 : ∀ o ∈ E0, o ∈ st.existing)
    (h4 : ∀ o ∈ st.outputs, o ∉ E0) :
    (l.foldl (windsurfStep names) st).outputs.Nodup ∧
    (∀ o ∈ (l.foldl (windsurfStep names) st).outputs, o ∉ E0) := by
  induction l generalizing st with
  | nil => exact ⟨h1, h4⟩
  | cons ip rest ih =>
      rw [List.foldl_cons]
      set st1 := windsurfStep names st ip with hst1
      have key : st1.outputs.Nodup ∧ (∀ o ∈ st1.outputs, o ∈ st1.existing) ∧
          (∀ o ∈ E0, o ∈ st1.existing) ∧ (∀ o ∈ st1.outputs, o ∉ E0) := by
        rw [hst1]
        unfold windsurfStep
        split
        case isTrue hok =>
          simp only []
          set out := uniqueName st.existing (wBaseName names ip.1)
            (normExt ip.2.1) with hout
          have hnotmem : out ∉ st.existing := uniqueName_not_mem _ _ _
          refine ⟨?_, ?_, ?_, ?_⟩
          · rw [List.nodup_append]
            refine ⟨h1, List.nodup_singleton _, ?_⟩
            intro a ha hb
            simp at hb
            subst hb
            exact hnotmem (h2 _ ha)
          · intro o ho
            rw [List.mem_append] at ho
            rcases ho with ho | ho
            · exact List.mem_cons_of_mem _ (h2 _ ho)
            · simp at ho
              subst ho
              exact List.mem_cons_self _ _
          · intro o ho
            exact List.mem_cons_of_mem _ (h3 _ ho)
          · intro o ho
            rw [List.mem_append] at ho
            rcases ho with ho | ho
            · exact h4 _ ho
            · simp at ho
              subst ho
              intro hE
              exact hnotmem (h3 _ hE)
        case isFalse hok =>
          exact ⟨h1, h2, h3, h4⟩
      exact ih st1 key.1 key.2.1 key.2.2.1 key.2.2.2

lemma windsurfFold_length (names : List Name)
    (l : List (Nat × Name × Bool)) (st : WState) :
    (l.foldl (windsurfStep names) st).outputs.length =
      st.outputs.length + l.countP (fun ip => ip.2.2) := by
  induction l generalizing st with
  | nil => simp
  | cons ip rest ih =>
      rw [List.foldl_cons, ih]
      unfold windsurfStep
      split
      case isTrue hok =>
        simp only [List.length_append, List.length_singleton]
        rw [List.countP_cons_of_pos _ _ (by simpa using hok)]
        omega
      case isFalse hok =>
        simp only []
        rw [List.countP_cons_of_neg _ _ (by simpa using hok)]

/-! ## Batch-fold lemmas -/

lemma blobFold_logoSt (rs : Resampler) (rt : TextRenderer) (pn pc : Name)
    (ns : List Name) (l : List (Nat × Option Img)) (st : BlobState) :
    (l.foldl (blobStep rs rt pn pc ns) st).logoSt = st.logoSt := by
  induction l generalizing st with
  | nil => rfl
  | cons ip rest ih =>
      rw [List.foldl_cons, ih]
      unfold blobStep
      match ip with
      | (i, none) => rfl
      | (i, some img) => rfl

lemma blobFold_qrSt (rs : Resampler) (rt : TextRenderer) (pn pc : Name)
    (ns : List Name) (l : List (Nat × Option Img)) (st : BlobState) :
    (l.foldl (blobStep rs rt pn pc ns) st).qrSt = st.qrSt := by
  induction l generalizing st with
  | nil => rfl
  | cons ip rest ih =>
      rw [List.foldl_cons, ih]
      unfold blobStep
      match ip with
      | (i, none) => rfl
      | (i, some img) => rfl

lemma blobFold_results (rs : Resampler) (rt : TextRenderer) (pn pc : Name)
    (ns : List Name) (l : List (Nat × Option Img)) (st : BlobState) :
    (l.foldl (blobStep rs rt pn pc ns) st).results =
      st.results ++ l.filterMap (fun ip => ip.2.map
        (fun im => (composeImg rs rt im st.logoSt st.qrSt pn pc,
          outputNameBlob ns ip.1))) := by
  induction l generalizing st with
  | nil => simp
  | cons ip rest ih =>
      rw [List.foldl_cons]
      match ip with
      | (i, none) =>
          rw [ih]
          simp [blobStep, List.filterMap_cons]
      | (i, some img) =>
          rw [ih]
          simp only [blobStep, List.filterMap_cons, Option.map_some']
          rw [List.append_assoc]
          rfl

lemma filterMap_option_length {α β : Type} (l : List (Nat × Option α))
    (f : Nat × Option α → α → β) :
    (l.filterMap (fun ip => ip.2.map (f ip))).length =
      l.countP (fun ip => ip.2.isSome) := by
  induction l with
  | nil => rfl
  | cons ip rest ih =>
      match ip with
      | (i, none) =>
          rw [List.filterMap_cons]
          simp only [Option.map_none']
          rw [ih, List.countP_cons_of_neg _ _ (by simp)]
      | (i, some a) =>
          rw [List.filterMap_cons]
          simp only [Option.map_some']
          rw [List.length_cons, ih, List.countP_cons_of_pos _ _ (by simp)]

lemma enum_countP_snd {α : Type} (l : List α) (q : α → Bool) :
    l.enum.countP (fun ip => q ip.2) = l.countP q := by
  have h : ∀ n, (l.enumFrom n).countP (fun ip => q ip.2) = l.countP q := by
    induction l with
    | nil => intro n; rfl
    | cons a rest ih =>
        intro n
        rw [List.enumFrom_cons]
        by_cases hq : q a
        · rw [List.countP_cons_of_pos _ _ (by simpa using hq),
            List.countP_cons_of_pos _ _ hq, ih]
        · rw [List.countP_cons_of_neg _ _ (by simpa using hq),
            List.countP_cons_of_neg _ _ hq, ih]
  exact h 0

/-! ## Encoding and windsurf navigation lemmas -/

lemma lowerName_append (a b : Name) :
    lowerName (a ++ b) = lowerName a ++ lowerName b := by
  unfold lowerName
  exact List.map_append _ a b

lemma drop_length_append (a b : Name) :
    (a ++ b).drop ((a ++ b).length - b.length) = b := by
  have h : (a ++ b).length - b.length = a.length := by
    rw [List.length_append]
    omega
  rw [h, List.drop_left]

lemma uniqueNameAux_suffix (E : List Name) (b e : Name) (fuel k : Nat) :
    ∃ y, uniqueNameAux E b e fuel k = y ++ e := by
  induction fuel generalizing k with
  | zero =>
      unfold uniqueNameAux candName
      split
      · exact ⟨b, rfl⟩
      · exact ⟨b ++ '_' :: natDigits k, by simp⟩
  | succ fuel ih =>
      unfold uniqueNameAux
      split
      · exact ih (k + 1)
      · unfold candName
        split
        · exact ⟨b, rfl⟩
        · exact ⟨b ++ '_' :: natDigits k, by simp⟩

lemma uniqueName_suffix (E : List Name) (b e : Name) :
    ∃ y, uniqueName E b e = y ++ e :=
  uniqueNameAux_suffix E b e (E.length + 1) 0

lemma endsWithPng_of_png (y : Name) :
    endsWithPng (y ++ ".png".toList) = true := by
  unfold endsWithPng
  rw [lowerName_append,
    show lowerName ".png".toList = ".png".toList from rfl]
  have hd := drop_length_append (lowerName y) ".png".toList
  rw [show (".png".toList : Name).length = 4 from rfl] at hd
  rw [hd]
  rfl

lemma endsWithPng_of_jpg (y : Name) :
    endsWithPng (y ++ ".jpg".toList) = false := by
  unfold endsWithPng
  rw [lowerName_append,
    show lowerName ".jpg".toList = ".jpg".toList from rfl]
  have hd := drop_length_append (lowerName y) ".jpg".toList
  rw [show (".jpg".toList : Name).length = 4 from rfl] at hd
  rw [hd]
  rfl

lemma endsWithPng_of_jpeg (y : Name) :
    endsWithPng (y ++ ".jpeg".toList) = false := by
  unfold endsWithPng
  rw [lowerName_append,
    show lowerName ".jpeg".toList = ".jpeg".toList from rfl]
  have hsplit : lowerName y ++ ".jpeg".toList =
      (lowerName y ++ ['.']) ++ "jpeg".toList := by
    simp
  rw [hsplit]
  have hd := drop_length_append (lowerName y ++ ['.']) "jpeg".toList
  rw [show ("jpeg".toList : Name).length = 4 from rfl] at hd
  rw [hd]
  rfl

lemma endsWithPng_of_gif (y : Name) :
    endsWithPng (y ++ ".gif".toList) = false := by
  unfold endsWithPng
  rw [lowerName_append,
    show lowerName ".gif".toList = ".gif".toList from rfl]
  have hd := drop_length_append (lowerName y) ".gif".toList
  rw [show (".gif".toList : Name).length = 4 from rfl] at hd
  rw [hd]
  rfl

lemma normExt_mem (f : Name) : normExt f ∈ extAllowList := by
  simp only [normExt]
  split
  case isTrue h => decide
  case isFalse h =>
    simp only [Bool.or_eq_true, Bool.not_eq_true', not_or] at h
    simpa using h.2

lemma windsurfMain_ok (E0 : List Name) (req : WReq) (ev0 : List WEv)
    (hasLogo : Bool)
    (hcount : 0 < (windsurfValid req).countP (fun p => p.2)) :
    ∃ outs, (windsurfMain E0 req ev0 hasLogo).1 = .ok outs ∧
      outs.length = (windsurfValid req).countP (fun p => p.2) := by
  obtain ⟨a, hamem, hap⟩ := List.countP_pos_iff.mp hcount
  have hvne : ¬((windsurfValid req).isEmpty = true) := by
    rw [List.isEmpty_iff]
    intro hnil
    rw [hnil] at hamem
    exact List.not_mem_nil a hamem
  have haph : a ∈ req.photos ∧ (!a.1.isEmpty && allowedFile a.1) = true :=
    List.mem_filter.mp hamem
  have hall : ¬(req.photos.all (fun p => p.1.isEmpty) = true) := by
    intro halltrue
    have := List.all_eq_true.mp halltrue a haph.1
    simp at this
    simp [this] at haph
  simp only [windsurfMain]
  rw [if_neg hall, if_neg hvne]
  set names := if req.fileNames.isEmpty ||
      req.fileNames.length != (windsurfValid req).length
    then (windsurfValid req).map (fun p => stripExt p.1)
    else req.fileNames with hnames
  set final := (windsurfValid req).enum.foldl (windsurfStep names)
    ⟨E0, [], ev0 ++ (if req.qrUrl.isEmpty then [] else [WEv.tmpQrWrite])⟩
    with hfinal
  have hlen : final.outputs.length =
      (windsurfValid req).countP (fun p => p.2) := by
    rw [hfinal, windsurfFold_length]
    simp only [List.length_nil, Nat.zero_add]
    exact enum_countP_snd (windsurfValid req) (fun p => p.2)
  have hne : ¬(final.outputs.isEmpty = true) := by
    rw [List.isEmpty_iff]
    intro hnil
    rw [hnil] at hlen
    simp at hlen
    omega
  rw [if_neg hne]
  exact ⟨final.outputs, rfl, hlen⟩

lemma windsurfMain_nodup (E0 : List Name) (req : WReq) (ev0 : List WEv)
    (hasLogo : Bool) (outs : List Name)
    (h : (windsurfMain E0 req ev0 hasLogo).1 = .ok outs) :
    outs.Nodup ∧ ∀ o ∈ outs, o ∉ E0 := by
  simp only [windsurfMain] at h
  repeat' split at h
  all_goals simp at h
  all_goals
    subst h
    exact windsurfFold_inv _ E0 _ _ List.nodup_nil (by simp)
      (fun o ho => ho) (by simp)

/-! ## The claims -/

/-- C1 (counterexample): at source height 817 the code's truncating
footer height is 122, while the claimed `max(round(0.15*H), 120)` is
123, so the claimed output height `H + 123` differs from the actual
`939`. -/
theorem c1_footer_rounding_counterexample :
    (makeCanvas (blank 100 817)).height = 939 ∧
    footerHeight 817 = 122 ∧ footerHeightSpec 817 = 123 ∧
    (makeCanvas (blank 100 817)).height ≠ 817 + footerHeightSpec 817 := by
  have hspec : footerHeightSpec 817 = 123 := by
    unfold footerHeightSpec
    have hr : round ((3 * ((817 : Nat) : ℚ)) / 20) = 123 := by
      rw [round_eq]
      norm_num
    rw [hr]
    rfl
  refine ⟨by decide, by decide, hspec, ?_⟩
  rw [hspec]
  decide

/-- C1 (amended): for every source photo the composed canvas has size
`(W, H + footer_height)` with the truncating
`footer_height = max(int(0.15*H), 120)`; the added footer band of the
fresh canvas is fully opaque white, and the photo is pasted at `(0,0)`
with its own alpha as the mask, so fully transparent source pixels stay
white. -/
theorem c1_canvas_geometry (rs : Resampler) (rt : TextRenderer)
    (img : Img) (logo qr : Option Img) (pn pc : Name) :
    (composeImg rs rt img logo qr pn pc).width = img.width ∧
    (composeImg rs rt img logo qr pn pc).height =
      img.height + footerHeight img.height ∧
    footerHeight img.height = max (3 * img.height / 20) 120 ∧
    (∀ x y, img.height ≤ y → (makeCanvas img).px x y = white) ∧
    (∀ x y, x < img.width → y < img.height → (img.px x y).a = 0 →
      (makeCanvas img).px x y = white) :=
  ⟨composeImg_width rs rt img logo qr pn pc,
    composeImg_height rs rt img logo qr pn pc, rfl,
    fun x y hy => makeCanvas_px_footer img x y hy,
    fun x y hx hy ha => makeCanvas_px_transparent img x y hx hy ha⟩

/-- Witness for `c1_canvas_geometry` at concrete inputs: a footer pixel
of an opaque photo and a transparent pixel of a transparent photo both
come out white. -/
theorem c1_canvas_geometry_witness :
    (makeCanvas solidTest).px 0 5 = white ∧
    (makeCanvas transparentTest).px 0 0 = white :=
  ⟨(c1_canvas_geometry simpleResampler simpleRenderer solidTest none none
      [] []).2.2.2.1 0 5 (by decide),
    (c1_canvas_geometry simpleResampler simpleRenderer transparentTest none
      none [] []).2.2.2.2 0 0 (by decide) (by decide) rfl⟩

/-- C3 (counterexample): on a fully opaque overlay pixel the adjusted
alpha is `int(255*0.5) = 127`, and `2*127 = 254 ≠ 255`, so the adjusted
value is strictly below — not exactly — 50% of the pre-adjustment
alpha. -/
theorem c3_full_opacity_counterexample :
    ((prepOverlay simpleResampler solidTest 1 1).px 0 0).a = 127 ∧
    ((thumbnailImg simpleResampler solidTest 1 1).px 0 0).a = 255 ∧
    2 * ((prepOverlay simpleResampler solidTest 1 1).px 0 0).a ≠
      ((thumbnailImg simpleResampler solidTest 1 1).px 0 0).a := by
  decide

/-- C3 (amended): the opacity adjustment maps every (post-scaling)
alpha value `p` to `int(p*0.5) = p/2` (truncating): the result is at
most 50% of the pre-adjustment alpha, equals 127 (50% of 255 rounded
down) where the source was fully opaque, leaves the colour channels
untouched, and preserves the relative transparency order of the
overlay art. -/
theorem c3_alpha_halving (rs : Resampler) (o : Img) (bw bh x y : Nat) :
    ((prepOverlay rs o bw bh).px x y).a =
      ((thumbnailImg rs o bw bh).px x y).a / 2 ∧
    2 * ((prepOverlay rs o bw bh).px x y).a ≤
      ((thumbnailImg rs o bw bh).px x y).a ∧
    (((thumbnailImg rs o bw bh).px x y).a = 255 →
      ((prepOverlay rs o bw bh).px x y).a = 127) ∧
    ((prepOverlay rs o bw bh).px x y).r =
      ((thumbnailImg rs o bw bh).px x y).r ∧
    ((prepOverlay rs o bw bh).px x y).g =
      ((thumbnailImg rs o bw bh).px x y).g ∧
    ((prepOverlay rs o bw bh).px x y).b =
      ((thumbnailImg rs o bw bh).px x y).b ∧
    (∀ x2 y2, ((thumbnailImg rs o bw bh).px x y).a ≤
        ((thumbnailImg rs o bw bh).px x2 y2).a →
      ((prepOverlay rs o bw bh).px x y).a ≤
        ((prepOverlay rs o bw bh).px x2 y2).a) := by
  refine ⟨rfl, ?_, ?_, rfl, rfl, rfl, ?_⟩
  · simp only [prepOverlay, putHalfAlpha]
    omega
  · intro h
    simp only [prepOverlay, putHalfAlpha, h]
  · intro x2 y2 h
    simp only [prepOverlay, putHalfAlpha]
    exact Nat.div_le_div_right h

/-- Witness for `c3_alpha_halving`: a fully opaque pixel is adjusted to
alpha 127. -/
theorem c3_alpha_halving_witness :
    ((prepOverlay simpleResampler solidTest 1 1).px 0 0).a = 127 :=
  (c3_alpha_halving simpleResampler solidTest 1 1 0 0).2.2.1 rfl

/-- C4 (confirmed): a QR payload URL matching one of the maps patterns
and containing `'?'` is truncated at its first `'?'` before encoding
(so the encoded payload is a query-free prefix of the original), and a
URL matching no maps pattern is encoded unchanged. -/
theorem c4_qr_url_normalization (url : Name) :
    (isGoogleMapsUrl url = true → url.contains '?' = true →
      cleanQrUrl url = url.takeWhile (fun c => c != '?') ∧
      (cleanQrUrl url).contains '?' = false ∧
      cleanQrUrl url <+: url) ∧
    (isGoogleMapsUrl url = false → cleanQrUrl url = url) := by
  constructor
  · intro hm hq
    have hcl : cleanQrUrl url = url.takeWhile (fun c => c != '?') := by
      unfold cleanQrUrl
      rw [hm, hq]
      rfl
    refine ⟨hcl, ?_, ?_⟩
    · rw [hcl]
      have hnot : '?' ∉ url.takeWhile (fun c => c != '?') := by
        intro hmem
        have := List.mem_takeWhile_imp hmem
        simp at this
      simpa using hnot
    · rw [hcl]
      exact ⟨url.dropWhile (fun c => c != '?'),
        List.takeWhile_append_dropWhile (fun c => c != '?') url⟩
  · intro hm
    unfold cleanQrUrl
    rw [hm]
    rfl

/-- Witness for `c4_qr_url_normalization` at the spec's concrete
scenario: the tracked maps URL is encoded with its query stripped. -/
theorem c4_qr_url_normalization_witness :
    isGoogleMapsUrl "https://maps.google.com/maps?cid=123&extra=1".toList
      = true ∧
    cleanQrUrl "https://maps.google.com/maps?cid=123&extra=1".toList =
      "https://maps.google.com/maps".toList := by
  have h := (c4_qr_url_normalization
    "https://maps.google.com/maps?cid=123&extra=1".toList).1
    (by decide) (by decide)
  exact ⟨by decide, h.1.trans (by decide)⟩

/-- C6 (confirmed): overlay scaling fits the prescribed boxes
(height ≤ 360 and width ≤ 0.3·W for the logo, 360×360 for the QR),
never exceeds the overlay's original pixel dimensions, and preserves
the aspect ratio up to the one-pixel rounding of the free dimension. -/
theorem c6_overlay_no_upscale (rs : Resampler) (o : Img) (W : Nat)
    (hw : 0 < o.width) (hh : 0 < o.height) :
    (preparedLogo rs o W).height ≤ targetElementHeight ∧
    10 * (preparedLogo rs o W).width ≤ 3 * W ∧
    (preparedLogo rs o W).width ≤ o.width ∧
    (preparedLogo rs o W).height ≤ o.height ∧
    (preparedQr rs o).width ≤ targetElementHeight ∧
    (preparedQr rs o).height ≤ targetElementHeight ∧
    (preparedQr rs o).width ≤ o.width ∧
    (preparedQr rs o).height ≤ o.height ∧
    |((preparedLogo rs o W).width : Int) * o.height -
      ((preparedLogo rs o W).height : Int) * o.width| ≤
        (max o.width o.height : Nat) ∧
    |((preparedQr rs o).width : Int) * o.height -
      ((preparedQr rs o).height : Int) * o.width| ≤
        (max o.width o.height : Nat) := by
  have h360 : 0 < targetElementHeight := by decide
  have hlogo := thumbnailSize_le o.width o.height (3 * W / 10)
    targetElementHeight hw hh h360
  have hqr := thumbnailSize_le o.width o.height targetElementHeight
    targetElementHeight hw hh h360
  have hlw : (preparedLogo rs o W).width =
      (thumbnailSize o.width o.height (3 * W / 10) targetElementHeight).1 :=
    prepOverlay_width rs o _ _
  have hlh : (preparedLogo rs o W).height =
      (thumbnailSize o.width o.height (3 * W / 10) targetElementHeight).2 :=
    prepOverlay_height rs o _ _
  have hqw : (preparedQr rs o).width =
      (thumbnailSize o.width o.height targetElementHeight
        targetElementHeight).1 :=
    prepOverlay_width rs o _ _
  have hqh : (preparedQr rs o).height =
      (thumbnailSize o.width o.height targetElementHeight
        targetElementHeight).2 :=
    prepOverlay_height rs o _ _
  refine ⟨?_, ?_, ?_, ?_, ?_, ?_, ?_, ?_, ?_, ?_⟩
  · rw [hlh]; exact hlogo.2.2.1
  · rw [hlw]
    have h1 : (thumbnailSize o.width o.height (3 * W / 10)
        targetElementHeight).1 ≤ 3 * W / 10 := hlogo.1
    have h2 : (3 * W / 10) * 10 ≤ 3 * W := Nat.div_mul_le_self _ _
    omega
  · rw [hlw]; exact hlogo.2.1
  · rw [hlh]; exact hlogo.2.2.2
  · rw [hqw]; exact hqr.1
  · rw [hqh]; exact hqr.2.2.1
  · rw [hqw]; exact hqr.2.1
  · rw [hqh]; exact hqr.2.2.2
  · rw [hlw, hlh]
    exact thumbnailSize_aspect o.width o.height (3 * W / 10)
      targetElementHeight hw hh h360
  · rw [hqw, hqh]
    exact thumbnailSize_aspect o.width o.height targetElementHeight
      targetElementHeight hw hh h360

/-- Witness for `c6_overlay_no_upscale` at the spec's concrete
scenario (an 800×200 logo on a 1000-wide photo). -/
theorem c6_overlay_no_upscale_witness :
    (preparedLogo simpleResampler testLogo 1000).height ≤
      targetElementHeight ∧
    10 * (preparedLogo simpleResampler testLogo 1000).width ≤ 3 * 1000 ∧
    (preparedLogo simpleResampler testLogo 1000).width ≤ testLogo.width :=
  have h := c6_overlay_no_upscale simpleResampler testLogo 1000
    (by decide) (by decide)
  ⟨h.1, h.2.1, h.2.2.1⟩

/-- C8 (confirmed): `draw_footer_text` is a no-op on an empty caption
list, and when both caption fields are empty every pixel of the footer
band lying outside the pasted logo and QR rectangles is plain white. -/
theorem c8_empty_caption_footer_white (rs : Resampler)
    (rt : TextRenderer) (img : Img) (logo qr : Option Img) (x y : Nat)
    (hy : img.height ≤ y)
    (hlogo : ∀ lg, logo = some lg →
      ¬((sidePad img.width : Int) ≤ (x : Int) ∧
        (x : Int) < sidePad img.width + (preparedLogo rs lg img.width).width ∧
        (sidePad img.width : Int) ≤ (y : Int) ∧
        (y : Int) < sidePad img.width + (preparedLogo rs lg img.width).height))
    (hqr : ∀ q, qr = some q →
      ¬(((img.width : Int) - (preparedQr rs q).width - sidePad img.width) ≤
          (x : Int) ∧
        (x : Int) < ((img.width : Int) - (preparedQr rs q).width -
          sidePad img.width) + (preparedQr rs q).width ∧
        (sidePad img.width : Int) ≤ (y : Int) ∧
        (y : Int) < sidePad img.width + (preparedQr rs q).height)) :
    (composeImg rs rt img logo qr [] []).px x y = white ∧
    (∀ canvas rect fsb, drawFooterText rt canvas [] rect fsb = canvas) := by
  constructor
  · cases logo with
    | none =>
        cases qr with
        | none => exact makeCanvas_px_footer img x y hy
        | some q =>
            show (pasteMask (makeCanvas img) (preparedQr rs q)
              ((img.width : Int) - (preparedQr rs q).width -
                sidePad img.width) (sidePad img.width)).px x y = white
            rw [pasteMask_px_of_notMem _ _ _ _ _ _ (hqr q rfl)]
            exact makeCanvas_px_footer img x y hy
    | some lg =>
        cases qr with
        | none =>
            show (pasteMask (makeCanvas img) (preparedLogo rs lg img.width)
              (sidePad img.width) (sidePad img.width)).px x y = white
            rw [pasteMask_px_of_notMem _ _ _ _ _ _ (hlogo lg rfl)]
            exact makeCanvas_px_footer img x y hy
        | some q =>
            show (pasteMask (pasteMask (makeCanvas img)
              (preparedLogo rs lg img.width) (sidePad img.width)
                (sidePad img.width))
              (preparedQr rs q) ((img.width : Int) - (preparedQr rs q).width -
                sidePad img.width) (sidePad img.width)).px x y = white
            rw [pasteMask_px_of_notMem _ _ _ _ _ _ (hqr q rfl)]
            rw [pasteMask_px_of_notMem _ _ _ _ _ _ (hlogo lg rfl)]
            exact makeCanvas_px_footer img x y hy
  · intro canvas rect fsb
    rfl

/-- Witness for `c8_empty_caption_footer_white`: with no overlays a
footer pixel of the composed photo is white. -/
theorem c8_empty_caption_footer_white_witness :
    (composeImg simpleResampler simpleRenderer solidTest none none
      [] []).px 0 5 = white :=
  (c8_empty_caption_footer_white simpleResampler simpleRenderer
    solidTest none none 0 5 (by decide)
    (fun lg h => Option.noConfusion h)
    (fun q h => Option.noConfusion h)).1

/-- C9 (counterexample): one shared 800×200 logo, reused for two photos
of widths 1000 and 3000 in one batch, is composited at scaled width 300
for the first photo and at its original width 800 for the second — not
at the same scaled size. -/
theorem c9_logo_scale_counterexample :
    (preparedLogo simpleResampler testLogo 1000).width = 300 ∧
    (preparedLogo simpleResampler testLogo 3000).width = 800 := by
  constructor
  · rw [preparedLogo, prepOverlay_width]
    show (thumbnailSize 800 200 (3 * 1000 / 10) targetElementHeight).1 = 300
    norm_num [targetElementHeight]
    unfold thumbnailSize
    rw [if_neg (by norm_num), if_neg (by norm_num)]
  · rw [preparedLogo, prepOverlay_width]
    show (thumbnailSize 800 200 (3 * 3000 / 10) targetElementHeight).1 = 800
    norm_num [targetElementHeight]
    unfold thumbnailSize
    rw [if_pos (by norm_num)]

/-- C9 (amended): compositing one photo never mutates the shared logo
or QR rasters: the loop state still holds the original overlays after
the whole batch, every photo is composited against the original rasters
(so the prepared overlay depends only on the original raster and that
photo's width, with a single truncated alpha halving, never a
cumulative one), and the QR — whose box does not depend on the photo —
is prepared identically for every photo. -/
theorem c9_no_overlay_mutation (rs : Resampler) (rt : TextRenderer)
    (photoUrls : List (Option Img)) (logo qr : Option Img)
    (pn pc : Name) (ns : List Name) :
    (photoUrls.enum.foldl (blobStep rs rt pn pc ns)
      ⟨logo, qr, []⟩).logoSt = logo ∧
    (photoUrls.enum.foldl (blobStep rs rt pn pc ns)
      ⟨logo, qr, []⟩).qrSt = qr ∧
    (photoUrls.enum.foldl (blobStep rs rt pn pc ns)
      ⟨logo, qr, []⟩).results =
      photoUrls.enum.filterMap (fun ip => ip.2.map
        (fun im => (composeImg rs rt im logo qr pn pc,
          outputNameBlob ns ip.1))) ∧
    (∀ o bw bh x y, ((prepOverlay rs o bw bh).px x y).a =
      ((thumbnailImg rs o bw bh).px x y).a / 2) := by
  refine ⟨blobFold_logoSt rs rt pn pc ns _ _,
    blobFold_qrSt rs rt pn pc ns _ _, ?_, fun o bw bh x y => rfl⟩
  rw [blobFold_results]
  rfl

/-- C5 (confirmed): a per-photo failure never aborts the batch.  In the
blob pipeline, as soon as one photo of a non-empty batch decodes, the
request succeeds with exactly one result per decodable photo (corrupt
photos are skipped); the hard `500` happens exactly when every photo of
a non-empty batch failed.  In the windsurf variant, any batch with at
least one valid, processable photo likewise returns success with one
output per processable photo. -/
theorem c5_batch_error_policy (rs : Resampler) (rt : TextRenderer)
    (photoUrls : List (Option Img)) (logo qr : Option Img)
    (pn pc : Name) (ns : List Name) :
    ((∃ p ∈ photoUrls, p.isSome = true) →
      processPhotosBlob rs rt photoUrls logo qr pn pc ns =
        .ok (photoUrls.enum.filterMap (fun ip => ip.2.map
          (fun im => (composeImg rs rt im logo qr pn pc,
            outputNameBlob ns ip.1)))) ∧
      (photoUrls.enum.filterMap (fun ip => ip.2.map
        (fun im => (composeImg rs rt im logo qr pn pc,
          outputNameBlob ns ip.1)))).length =
        photoUrls.countP (fun p => p.isSome)) ∧
    (photoUrls ≠ [] → (∀ p ∈ photoUrls, p = none) →
      processPhotosBlob rs rt photoUrls logo qr pn pc ns = .error 500) ∧
    (∀ (E0 : List Name) (req : WReq),
      (∀ lf, req.logoName = some lf → allowedFile lf = true) →
      0 < (windsurfValid req).countP (fun p => p.2) →
      ∃ outs, (windsurfUpload E0 req).1 = .ok outs ∧
        outs.length = (windsurfValid req).countP (fun p => p.2)) := by
  have hlen : (photoUrls.enum.filterMap (fun ip => ip.2.map
      (fun im => (composeImg rs rt im logo qr pn pc,
        outputNameBlob ns ip.1)))).length =
      photoUrls.countP (fun p => p.isSome) := by
    rw [filterMap_option_length]
    exact enum_countP_snd photoUrls (fun p => p.isSome)
  refine ⟨?_, ?_, ?_⟩
  · intro hex
    obtain ⟨p, hpmem, hpsome⟩ := hex
    have hne : ¬(photoUrls.isEmpty = true) := by
      rw [List.isEmpty_iff]
      intro hnil
      rw [hnil] at hpmem
      exact List.not_mem_nil p hpmem
    have hcount : 0 < photoUrls.countP (fun p => p.isSome) :=
      List.countP_pos_iff.mpr ⟨p, hpmem, hpsome⟩
    refine ⟨?_, hlen⟩
    unfold processPhotosBlob
    rw [if_neg hne]
    show (if (photoUrls.enum.foldl (blobStep rs rt pn pc ns)
        ⟨logo, qr, []⟩).results.isEmpty = true then Except.error 500
      else Except.ok (photoUrls.enum.foldl (blobStep rs rt pn pc ns)
        ⟨logo, qr, []⟩).results) = _
    rw [blobFold_results]
    simp only [List.nil_append]
    have hfne : ¬(photoUrls.enum.filterMap (fun ip => ip.2.map
        (fun im => (composeImg rs rt im logo qr pn pc,
          outputNameBlob ns ip.1)))).isEmpty = true := by
      rw [List.isEmpty_iff]
      intro hnil
      rw [hnil] at hlen
      simp at hlen
      omega
    rw [if_neg hfne]
  · intro hne hall
    have hcount : photoUrls.countP (fun p => p.isSome) = 0 := by
      rw [List.countP_eq_zero]
      intro p hp
      rw [hall p hp]
      simp
    have hne' : ¬(photoUrls.isEmpty = true) := by
      rw [List.isEmpty_iff]
      exact hne
    unfold processPhotosBlob
    rw [if_neg hne']
    show (if (photoUrls.enum.foldl (blobStep rs rt pn pc ns)
        ⟨logo, qr, []⟩).results.isEmpty = true then Except.error 500
      else Except.ok (photoUrls.enum.foldl (blobStep rs rt pn pc ns)
        ⟨logo, qr, []⟩).results) = _
    rw [blobFold_results]
    simp only [List.nil_append]
    rw [if_pos]
    rw [List.isEmpty_iff, ← List.length_eq_zero]
    rw [hlen, hcount]
  · intro E0 req hlogoOk hcount
    cases hL : req.logoName with
    | none =>
        have heq : windsurfUpload E0 req = windsurfMain E0 req [] false := by
          unfold windsurfUpload
          rw [hL]
        rw [heq]
        exact windsurfMain_ok E0 req [] false hcount
    | some lf =>
        have heq : windsurfUpload E0 req =
            windsurfMain E0 req [WEv.tmpLogoWrite] true := by
          unfold windsurfUpload
          rw [hL]
          show (if allowedFile lf = true
            then windsurfMain E0 req [WEv.tmpLogoWrite] true
            else (Except.error 400, [])) = _
          rw [if_pos (hlogoOk lf hL)]
        rw [heq]
        exact windsurfMain_ok E0 req [WEv.tmpLogoWrite] true hcount

/-- C2 (counterexample): in the blob pipeline (`src/app.py`) there is
no uniqueness loop — two photos with the identical derived base name
`x` both receive the output name `x.jpg` within one batch. -/
theorem c2_blob_duplicate_names :
    (processPhotosBlob simpleResampler simpleRenderer
      [some solidTest, some solidTest] none none [] []
      ["x".toList, "x".toList]).toOption.map
        (fun res => res.map Prod.snd) =
      some ["x.jpg".toList, "x.jpg".toList] ∧
    outputNameBlob ["x".toList, "x".toList] 0 =
      outputNameBlob ["x".toList, "x".toList] 1 :=
  ⟨rfl, rfl⟩

/-- C2 (amended): in the windsurf variant the incrementing-suffix loop
makes the batch's output names pairwise distinct and distinct from
every name already in the destination folder. -/
theorem c2_windsurf_unique_names (E0 : List Name) (req : WReq)
    (outs : List Name) (h : (windsurfUpload E0 req).1 = .ok outs) :
    outs.Nodup ∧ ∀ o ∈ outs, o ∉ E0 := by
  cases hL : req.logoName with
  | none =>
      have h' : (windsurfMain E0 req [] false).1 = .ok outs := by
        have heq : windsurfUpload E0 req = windsurfMain E0 req [] false := by
          unfold windsurfUpload
          rw [hL]
        rw [← heq]
        exact h
      exact windsurfMain_nodup E0 req [] false outs h'
  | some lf =>
      by_cases hA : allowedFile lf = true
      · have h' : (windsurfMain E0 req [WEv.tmpLogoWrite] true).1 =
            .ok outs := by
          have heq : windsurfUpload E0 req =
              windsurfMain E0 req [WEv.tmpLogoWrite] true := by
            unfold windsurfUpload
            rw [hL]
            show (if allowedFile lf = true
              then windsurfMain E0 req [WEv.tmpLogoWrite] true
              else (Except.error 400, [])) = _
            rw [if_pos hA]
          rw [← heq]
          exact h
        exact windsurfMain_nodup E0 req [WEv.tmpLogoWrite] true outs h'
      · exfalso
        have heq : windsurfUpload E0 req =
            ((Except.error 400 : Except Nat (List Name)),
              ([] : List WEv)) := by
          unfold windsurfUpload
          rw [hL]
          show (if allowedFile lf = true
            then windsurfMain E0 req [WEv.tmpLogoWrite] true
            else (Except.error 400, [])) = _
          rw [if_neg hA]
        rw [heq] at h
        simp at h

/-- Witness for `c2_windsurf_unique_names`: two photos sharing the base
name `x` come out as `x.jpg` and `x_1.jpg`. -/
theorem c2_windsurf_unique_names_witness :
    (["x.jpg".toList, "x_1.jpg".toList] : List Name).Nodup ∧
    ∀ o ∈ (["x.jpg".toList, "x_1.jpg".toList] : List Name),
      o ∉ ([] : List Name) :=
  c2_windsurf_unique_names [] reqTwoSame
    ["x.jpg".toList, "x_1.jpg".toList] rfl

/-- C10 (counterexample): in the windsurf variant an empty photo list
with a logo part still writes (and then removes) the temp logo file
before the validation error — a file write does occur on this error
path. -/
theorem c10_windsurf_tmp_write_counterexample :
    (windsurfUpload [] reqLogoOnly).1 = .error 400 ∧
    (windsurfUpload [] reqLogoOnly).2 =
      [WEv.tmpLogoWrite, WEv.tmpLogoRemove] ∧
    WEv.tmpLogoWrite ∈ (windsurfUpload [] reqLogoOnly).2 := by
  refine ⟨rfl, rfl, ?_⟩
  decide

/-- C10 (amended): an empty photo list fails with the validation error
400 before any photo is decoded, composed or stored.  The blob pipeline
performs no side effect at all on this path; the windsurf variant may
first write and remove its temp logo/QR files, but writes no photo
temp file and no output. -/
theorem c10_empty_batch_validation (rs : Resampler) (rt : TextRenderer)
    (logo qr : Option Img) (pn pc : Name) (ns : List Name) :
    processPhotosBlobTr rs rt [] logo qr pn pc ns = (.error 400, []) ∧
    (∀ (E0 : List Name) (req : WReq), req.photos = [] →
      (windsurfUpload E0 req).1 = .error 400 ∧
      (∀ nm, WEv.outWrite nm ∉ (windsurfUpload E0 req).2) ∧
      (∀ nm, WEv.photoTmpWrite nm ∉ (windsurfUpload E0 req).2)) := by
  refine ⟨rfl, ?_⟩
  intro E0 req hphotos
  have hmain : ∀ (ev0 : List WEv) (hasLogo : Bool),
      windsurfMain E0 req ev0 hasLogo =
      (.error 400,
        (ev0 ++ (if req.qrUrl.isEmpty then [] else [WEv.tmpQrWrite])) ++
        ((if hasLogo then [WEv.tmpLogoRemove] else []) ++
          (if req.qrUrl.isEmpty then [] else [WEv.tmpQrRemove]))) := by
    intro ev0 hasLogo
    simp only [windsurfMain]
    rw [if_pos]
    rw [hphotos]
    rfl
  have hnm : ∀ (ev0 : List WEv) (hasLogo : Bool),
      (∀ ev, ev ∈ ev0 → ev = WEv.tmpLogoWrite) →
      (∀ nm, WEv.outWrite nm ∉ (windsurfMain E0 req ev0 hasLogo).2) ∧
      (∀ nm, WEv.photoTmpWrite nm ∉ (windsurfMain E0 req ev0 hasLogo).2) := by
    intro ev0 hasLogo hev0
    rw [hmain]
    constructor <;> intro nm hmem <;>
      · simp only [List.mem_append] at hmem
        rcases hmem with (hmem | hmem) | hmem | hmem
        · have := hev0 _ hmem
          simp at this
        · revert hmem
          split <;> simp
        · revert hmem
          split <;> simp
        · revert hmem
          split <;> simp
  cases hL : req.logoName with
  | none =>
      have heq : windsurfUpload E0 req = windsurfMain E0 req [] false := by
        unfold windsurfUpload
        rw [hL]
      rw [heq, hmain]
      refine ⟨rfl, ?_⟩
      rw [← hmain]
      exact hnm [] false (by simp)
  | some lf =>
      by_cases hA : allowedFile lf = true
      · have heq : windsurfUpload E0 req =
            windsurfMain E0 req [WEv.tmpLogoWrite] true := by
          unfold windsurfUpload
          rw [hL]
          show (if allowedFile lf = true
            then windsurfMain E0 req [WEv.tmpLogoWrite] true
            else (Except.error 400, [])) = _
          rw [if_pos hA]
        rw [heq, hmain]
        refine ⟨rfl, ?_⟩
        rw [← hmain]
        exact hnm [WEv.tmpLogoWrite] true (by simp)
      · have heq : windsurfUpload E0 req =
            ((Except.error 400 : Except Nat (List Name)),
              ([] : List WEv)) := by
          unfold windsurfUpload
          rw [hL]
          show (if allowedFile lf = true
            then windsurfMain E0 req [WEv.tmpLogoWrite] true
            else (Except.error 400, [])) = _
          rw [if_neg hA]
        rw [heq]
        exact ⟨rfl, fun nm => by simp, fun nm => by simp⟩

/-- Witness for `c10_empty_batch_validation` at a concrete empty
request. -/
theorem c10_empty_batch_validation_witness :
    (windsurfUpload [] reqNoPhotos).1 = .error 400 ∧
    WEv.photoTmpWrite "x.jpg".toList ∉ (windsurfUpload [] reqNoPhotos).2 :=
  have h := (c10_empty_batch_validation simpleResampler simpleRenderer
    none none [] [] []).2 [] reqNoPhotos rfl
  ⟨h.1, h.2.2 "x.jpg".toList⟩

/-- C7 (confirmed): the output encoding is selected by the derived
name's extension.  In the windsurf variant a chosen output name built
from the normalised extension `.png` (requested, or implied by a
missing/unknown source extension) is saved as lossless PNG with the
raster untouched; any other extension is flattened to RGB (every output
pixel fully opaque, colour channels kept — and, where the source photo
was transparent, already blended to white by the masked paste) and
saved as JPEG at fixed quality 95.  The blob pipeline always encodes
JPEG at quality 95 — the default. -/
theorem c7_output_encoding (f base : Name) (existing : List Name)
    (img photo : Img) (rs : Resampler) (rt : TextRenderer) (x y : Nat) :
    (normExt f = ".png".toList →
      saveProcessed (uniqueName existing base (normExt f)) img = .png img) ∧
    (normExt f ≠ ".png".toList →
      saveProcessed (uniqueName existing base (normExt f)) img =
        .jpeg 95 (toRGB img)) ∧
    ((toRGB img).px x y).a = 255 ∧
    ((toRGB img).px x y).r = (img.px x y).r ∧
    ((toRGB img).px x y).g = (img.px x y).g ∧
    ((toRGB img).px x y).b = (img.px x y).b ∧
    blobEncode img = .jpeg 95 (toRGB img) ∧
    (x < photo.width → y < photo.height → (photo.px x y).a = 0 →
      (toRGB (composeImg rs rt photo none none [] [])).px x y = white) := by
  refine ⟨?_, ?_, rfl, rfl, rfl, rfl, rfl, ?_⟩
  · intro hpng
    obtain ⟨ybase, hy⟩ := uniqueName_suffix existing base (normExt f)
    unfold saveProcessed
    rw [hy, hpng, endsWithPng_of_png]
    rfl
  · intro hnot
    obtain ⟨ybase, hy⟩ := uniqueName_suffix existing base (normExt f)
    have hmem := normExt_mem f
    simp only [extAllowList, List.mem_cons] at hmem
    unfold saveProcessed
    rcases hmem with hext | hext | hext | hext | hnil
    · exact absurd hext hnot
    · rw [hy, hext, endsWithPng_of_jpg]
      rfl
    · rw [hy, hext, endsWithPng_of_jpeg]
      rfl
    · rw [hy, hext, endsWithPng_of_gif]
      rfl
    · simp at hnil
  · intro hx hyy ha
    have h := makeCanvas_px_transparent photo x y hx hyy ha
    show (toRGB (makeCanvas photo)).px x y = white
    simp only [toRGB, h]
    rfl

/-- Witness for `c7_output_encoding`: a `.jpg` upload comes out as
JPEG quality 95 and a `.png` upload as lossless PNG. -/
theorem c7_output_encoding_witness :
    saveProcessed (uniqueName [] "x".toList (normExt "x.jpg".toList))
      solidTest = .jpeg 95 (toRGB solidTest) ∧
    saveProcessed (uniqueName [] "x".toList (normExt "x.png".toList))
      solidTest = .png solidTest ∧
    (toRGB (composeImg simpleResampler simpleRenderer transparentTest
      none none [] [])).px 0 0 = white :=
  ⟨(c7_output_encoding "x.jpg".toList "x".toList [] solidTest solidTest
      simpleResampler simpleRenderer 0 0).2.1 (by decide),
    (c7_output_encoding "x.png".toList "x".toList [] solidTest solidTest
      simpleResampler simpleRenderer 0 0).1 (by decide),
    (c7_output_encoding "x.jpg".toList "x".toList [] solidTest
      transparentTest simpleResampler simpleRenderer 0 0).2.2.2.2.2.2.2
      (by decide) (by decide) rfl⟩

/-- Witness for `c5_batch_error_policy`: an all-corrupt batch errors
with 500, a batch with one good photo succeeds with one result, and a
windsurf batch with two processable photos returns two outputs. -/
theorem c5_batch_error_policy_witness :
    processPhotosBlob simpleResampler simpleRenderer [none] none none
      [] [] [] = .error 500 ∧
    processPhotosBlob simpleResampler simpleRenderer [some solidTest]
      none none [] [] [] =
      .ok [(composeImg simpleResampler simpleRenderer solidTest none
        none [] [], "photo_1.jpg".toList)] ∧
    (∃ outs, (windsurfUpload [] reqTwoSame).1 = .ok outs ∧
      outs.length = (windsurfValid reqTwoSame).countP (fun p => p.2)) := by
  refine ⟨?_, ?_, ?_⟩
  · exact (c5_batch_error_policy simpleResampler simpleRenderer [none]
      none none [] [] []).2.1 (by simp) (by simp)
  · have h := (c5_batch_error_policy simpleResampler simpleRenderer
      [some solidTest] none none [] [] []).1
      ⟨some solidTest, List.mem_singleton.mpr rfl, rfl⟩
    exact h.1.trans rfl
  · exact (c5_batch_error_policy simpleResampler simpleRenderer []
      none none [] [] []).2.2 [] reqTwoSame
      (fun lf h => Option.noConfusion h) (by decide)

end UniquePhotos
